import Mathlib

/-!
Shallow embedding of the scikit-bio `Sequence` core
(`skbio/sequence/_sequence.py`) and proofs about its documented behaviour.

A `Sequence` stores a list of byte codes, optional per-position quality
scores, an id, a description, and a class tag (modelling the concrete
Python class of the instance, which participates in equality and munging).
-/

set_option autoImplicit false

namespace Skbio

universe u

/-- Logical error kinds raised by the sequence core (section 7 of the spec):
each constructor corresponds to one exception site in `_sequence.py`. -/
inductive Err where
  | typeMismatch
  | dimension
  | lengthMismatch
  | negativeValue
  | encoding
  | invalidIndex
  | emptyQuery
  | notFound
  | invalidArgument
  | valueError
deriving DecidableEq

/-- Python slice object `slice(start, stop, step)`; `none` models `None`. -/
structure PySlice where
  start : Option Int
  stop : Option Int
  step : Option Int
deriving DecidableEq

/-- The biological sequence: byte codes, metadata, optional quality scores.
`cls` models the concrete Python class (`self.__class__`). -/
structure Sequence where
  cls : String
  bytes : List Nat
  id : String
  description : String
  quality : Option (List Nat)
deriving DecidableEq, Inhabited

/-- CPython `PySlice_GetIndicesEx` clamping followed by element extraction:
the semantics of indexing a 1-D numpy array (or a Python list) with
`slice(start?, stop?, step)`.  Total function; the `step = 0` case (which
raises in Python) is guarded by `applySlice` below and never reached with
meaningful output. -/
def sliceCore {α : Type u} [Inhabited α] (l : List α) (start? stop? : Option Int)
    (step : Int) : List α :=
  let n : Int := l.length
  let lower : Int := if step < 0 then -1 else 0
  let upper : Int := if step < 0 then n - 1 else n
  let start : Int :=
    match start? with
    | none => if step < 0 then upper else lower
    | some s => if s < 0 then max (s + n) lower else min s upper
  let stop : Int :=
    match stop? with
    | none => if step < 0 then lower else upper
    | some s => if s < 0 then max (s + n) lower else min s upper
  let count : Nat :=
    if 0 < step then
      (if start < stop then (stop - start - 1).toNat / step.toNat + 1 else 0)
    else
      (if stop < start then (start - stop - 1).toNat / (-step).toNat + 1 else 0)
  (List.range count).map
    (fun (j : Nat) => l.getD (start + (j : Int) * step).toNat default)

/-- Indexing a list with a Python slice object; a zero step raises
`ValueError` exactly as numpy does. -/
def applySlice {α : Type u} [Inhabited α] (l : List α) (sl : PySlice) :
    Except Err (List α) :=
  if sl.step.getD 1 = 0 then .error .valueError
  else .ok (sliceCore l sl.start sl.stop (sl.step.getD 1))

/-- Conversion applied by `Sequence._slices_from_iter` to an integer element
of a heterogeneous index iterable: `i` becomes `slice(i, i+1)` except `-1`,
which becomes `slice(-1, None)`. -/
def intToSlice (i : Int) : PySlice :=
  if i = -1 then ⟨some i, none, none⟩ else ⟨some i, some (i + 1), none⟩

/-- Element of a heterogeneous index iterable, as classified by
`Sequence._slices_from_iter`: a slice object, a non-bool integer, or
anything else (which raises `IndexError`). -/
inductive IterIdx where
  | sl (s : PySlice)
  | int (i : Int)
  | other
deriving DecidableEq

/-- Whether the element is a slice object (used to characterise iterables
that numpy turns into an `object`-dtype array, taking the heterogeneous
indexing path of `__getitem__`). -/
def IterIdx.isSl : IterIdx → Bool
  | .sl _ => true
  | _ => false

/-- Whether the element is of a type `_slices_from_iter` rejects. -/
def IterIdx.isOther : IterIdx → Bool
  | .other => true
  | _ => false

/-- Whether the element, if a slice, has a nonzero step (a zero step makes
numpy raise `ValueError` when the slice is applied). -/
def IterIdx.stepOk : IterIdx → Bool
  | .sl s => s.step.getD 1 != 0
  | _ => true

/-- Model of `Sequence._slices_from_iter`: each slice element is applied
as-is, each integer is first converted by `intToSlice`, and any other
element raises `IndexError` (the segments are forced in order by
`np.concatenate(list(...))`, so the first bad element wins). -/
def slices_from_iter {α : Type u} [Inhabited α] (arr : List α) :
    List IterIdx → Except Err (List (List α))
  | [] => .ok []
  | .sl s :: rest =>
    (applySlice arr s).bind fun seg =>
      (slices_from_iter arr rest).map fun rs => seg :: rs
  | .int i :: rest =>
    (applySlice arr (intToSlice i)).bind fun seg =>
      (slices_from_iter arr rest).map fun rs => seg :: rs
  | .other :: _ => .error .invalidIndex

/-- Model of the heterogeneous-iterable branch of `Sequence.__getitem__`
(taken when the index iterable produces an `object`-dtype array): the byte
segments produced by `_slices_from_iter` are concatenated, quality is
sliced the same way when present, and id/description/class propagate
through `_to`. -/
def getitemIter (s : Sequence) (ixs : List IterIdx) : Except Err Sequence :=
  (slices_from_iter s.bytes ixs).bind fun segs =>
    match s.quality with
    | none => .ok { s with bytes := segs.flatten, quality := none }
    | some q =>
      (slices_from_iter q ixs).map fun qsegs =>
        { s with bytes := segs.flatten, quality := some qsegs.flatten }

/-- Slicing a sequence with a plain slice whose step is `None` (the form
used internally by `kmers` as `self[i:i+k]`): bytes and quality are sliced
in lockstep, id/description/class propagate. -/
def getitemSliceT (s : Sequence) (start? stop? : Option Int) : Sequence :=
  { s with
    bytes := sliceCore s.bytes start? stop? 1
    quality := s.quality.map fun q => sliceCore q start? stop? 1 }

/-- Boolean-mask selection, the numpy semantics of `arr[mask]` for a mask
of matching length. -/
def maskSelect {α : Type u} (l : List α) (mask : List Bool) : List α :=
  ((l.zip mask).filter fun p => p.2).map fun p => p.1

/-- Quality-score comparison used by `equals`, the behaviour of
`np.array_equal(self.quality, other.quality)` where absent quality is
`None`: both absent compares equal, presence mismatch compares unequal
(shape mismatch), both present compares length and elements. -/
def qualEq : Option (List Nat) → Option (List Nat) → Bool
  | none, none => true
  | some a, some b => a == b
  | _, _ => false

/-- Model of `Sequence.equals`: early-returning checks ordered type, id,
description, quality, sequence, each skipped when its feature name is in
`ignore`. -/
def equals (s o : Sequence) (ignore : List String) : Bool :=
  if "type" ∉ ignore ∧ s.cls ≠ o.cls then false
  else if "id" ∉ ignore ∧ s.id ≠ o.id then false
  else if "description" ∉ ignore ∧ s.description ≠ o.description then false
  else if "quality" ∉ ignore ∧ ¬qualEq s.quality o.quality then false
  else if "sequence" ∉ ignore ∧ s.bytes ≠ o.bytes then false
  else true

/-- Greedy left-to-right non-overlapping substring counting, the semantics
of CPython `str.count` on the already-windowed string. -/
def countOccur (pat : List Nat) : List Nat → Nat
  | [] => 0
  | a :: rest =>
    if h : pat ≠ [] ∧ List.isPrefixOf pat (a :: rest) then
      countOccur pat (List.drop pat.length (a :: rest)) + 1
    else
      countOccur pat rest
termination_by l => l.length
decreasing_by
  · have hp : 0 < pat.length := List.length_pos.mpr h.1
    simp only [List.length_drop, List.length_cons]
    omega
  · simp only [List.length_cons]
    omega

/-- CPython `ADJUST_INDICES` treatment of the optional `start` argument of
`str.count` / `str.find`: negative values are taken from the end and
clamped below at 0; values past the end are *not* clamped above. -/
def adjStart (n : Nat) (start? : Option Int) : Int :=
  match start? with
  | none => 0
  | some s => if s < 0 then max (s + n) 0 else s

/-- CPython `ADJUST_INDICES` treatment of the optional `end` argument:
clamped above at the string length, negative values taken from the end and
clamped below at 0. -/
def adjEnd (n : Nat) (end? : Option Int) : Int :=
  match end? with
  | none => n
  | some e => if e > n then n else if e < 0 then max (e + n) 0 else e

/-- CPython `str.count(sub, start, end)` on byte strings: non-overlapping
occurrences lying entirely inside the adjusted window. -/
def pyCount (s pat : List Nat) (start? end? : Option Int) : Nat :=
  let st := adjStart s.length start?
  let en := adjEnd s.length end?
  countOccur pat ((s.drop st.toNat).take (en - st).toNat)

/-- Offset of the first occurrence of `pat` inside `l` (`none` if absent);
the search inside the window performed by CPython `str.find`. -/
def findSub (pat : List Nat) : List Nat → Option Nat
  | [] => if pat = [] then some 0 else none
  | a :: rest =>
    if List.isPrefixOf pat (a :: rest) then some 0
    else (findSub pat rest).map (· + 1)

/-- CPython `str.find(sub, start, end)` on byte strings, including the
empty-substring rule: after index adjustment, a negative window length
yields `-1`, an empty substring otherwise yields the adjusted start. -/
def pyFind (s pat : List Nat) (start? end? : Option Int) : Int :=
  let st := adjStart s.length start?
  let en := adjEnd s.length end?
  if pat.length = 0 then (if en - st < 0 then -1 else st)
  else
    match findSub pat ((s.drop st.toNat).take (en - st).toNat) with
    | some p => st + p
    | none => -1

/-- Model of `Sequence.count`: a zero-length subsequence raises
`ValueError` before munging; then the subsequence is munged (a `Sequence`
of a different concrete type raises `TypeError`) and occurrences are
counted with `str.count`. -/
def Sequence.count (s sub : Sequence) (start? end? : Option Int) :
    Except Err Nat :=
  if sub.bytes.length = 0 then .error .emptyQuery
  else if sub.cls ≠ s.cls then .error .typeMismatch
  else .ok (pyCount s.bytes sub.bytes start? end?)

/-- Model of `Sequence.index`: the subsequence is munged, `str.index` is
attempted, and its `ValueError` is re-raised as the not-found error. -/
def Sequence.index (s sub : Sequence) (start? end? : Option Int) :
    Except Err Int :=
  if sub.cls ≠ s.cls then .error .typeMismatch
  else if pyFind s.bytes sub.bytes start? end? < 0 then .error .notFound
  else .ok (pyFind s.bytes sub.bytes start? end?)

/-- Number of positions at which two equal-length byte lists differ (the
sum of the boolean vector `u != v`). -/
def mismatchCount (a b : List Nat) : Nat :=
  ((a.zip b).filter fun p => p.1 != p.2).length

/-- The `scipy.spatial.distance.hamming` value `(u != v).mean()` as an
exact rational: differing positions over length. -/
def hammingDist (a b : List Nat) : ℚ :=
  (mismatchCount a b : ℚ) / (a.length : ℚ)

/-- Model of `Sequence.distance`: munge `other` (same concrete type
required), then either the default metric — which first requires equal
lengths — or a caller-supplied metric applied to the raw symbol arrays
with no length check. -/
def distance (s o : Sequence) (metric : Option (List Nat → List Nat → ℚ)) :
    Except Err ℚ :=
  if o.cls ≠ s.cls then .error .typeMismatch
  else
    match metric with
    | none =>
      if s.bytes.length ≠ o.bytes.length then .error .lengthMismatch
      else .ok (hammingDist s.bytes o.bytes)
    | some f => .ok (f s.bytes o.bytes)

/-- Model of `Sequence.matches`: munge, require equal lengths, return the
element-wise equality vector `self._bytes == other._bytes`. -/
def matchesVec (s o : Sequence) : Except Err (List Bool) :=
  if o.cls ≠ s.cls then .error .typeMismatch
  else if s.bytes.length ≠ o.bytes.length then .error .lengthMismatch
  else .ok (List.zipWith (fun a b => a == b) s.bytes o.bytes)

/-- Model of `Sequence.mismatches`: `np.invert(self.matches(other))`. -/
def mismatchesVec (s o : Sequence) : Except Err (List Bool) :=
  (matchesVec s o).map (List.map fun b => !b)

/-- Number of elements of Python `range(0, bound, step)` for `step ≥ 1`
(and, vacuously, 0 for a junk `step = 0`). -/
def pyRangeLen (bound : Int) (step : Nat) : Nat :=
  if bound ≤ 0 then 0 else (bound.toNat + step - 1) / step

/-- Python `range(0, bound, step)` as a list of naturals. -/
def pyRange (bound : Int) (step : Nat) : List Nat :=
  (List.range (pyRangeLen bound step)).map (· * step)

/-- Model of `Sequence.kmers`: `k < 1` raises `ValueError`; otherwise the
windows `self[i:i+k]` for `i in range(0, len(self) - k + 1, step)` with
step 1 when overlapping and `k` otherwise. -/
def kmers (s : Sequence) (k : Int) (overlap : Bool) :
    Except Err (List Sequence) :=
  if k < 1 then .error .invalidArgument
  else
    .ok ((pyRange ((s.bytes.length : Int) - k + 1)
            (if overlap then 1 else k.toNat)).map
      fun (i : Nat) => getitemSliceT s (some (i : Int)) (some ((i : Int) + k)))

/-- Insertion of one key into a `collections.Counter` modelled as an
association list in first-insertion order. -/
def counterInsert (m : List (List Nat × Nat)) (key : List Nat) :
    List (List Nat × Nat) :=
  if m.any fun p => p.1 == key then
    m.map fun p => if p.1 == key then (p.1, p.2 + 1) else p
  else m ++ [(key, 1)]

/-- The `collections.Counter` of a list of keys. -/
def kmerCounter (keys : List (List Nat)) : List (List Nat × Nat) :=
  keys.foldl counterInsert []

/-- Model of `Sequence.kmer_frequencies(k, overlap, relative=True)`: count
the k-mer windows, then divide every count by the window-count formula
(`N - k + 1` when overlapping, `N // k` otherwise), producing the contents
of the returned `defaultdict(float)`. -/
def kmer_frequencies_relative (s : Sequence) (k : Int) (overlap : Bool) :
    Except Err (List (List Nat × ℚ)) :=
  (kmers s k overlap).map fun ws =>
    let freqs := kmerCounter (ws.map fun w => w.bytes)
    let numKmers : Int :=
      if overlap then (s.bytes.length : Int) - k + 1
      else (s.bytes.length : Int) / k
    freqs.map fun p => (p.1, (p.2 : ℚ) / (numKmers : ℚ))

/-- Lookup in a `defaultdict(float)` modelled as an association list:
missing keys give `0.0`. -/
def freqLookup (m : List (List Nat × ℚ)) (key : List Nat) : ℚ :=
  ((m.find? fun p => p.1 == key).map fun p => p.2).getD 0

/-- Outcome of one `re` match object: the span of group 0 (the whole
match) and the spans of the explicit capturing groups `1..n`, all in local
coordinates of the string that was searched.  The regex engine itself is
the Python `re` module, external to the repository, so matches enter the
model as data. -/
structure ReMatch where
  span0 : Nat × Nat
  gspans : List (Nat × Nat)
deriving DecidableEq

/-- Python `match.span(g)`: group 0 is the whole match, group `g ≥ 1` is
the g-th explicit capturing group. -/
def matchSpan (m : ReMatch) (g : Nat) : Nat × Nat :=
  if g = 0 then m.span0 else m.gspans.getD (g - 1) (0, 0)

/-- The slices emitted by `slices_from_regex` for one match: for each
`g in range(1, len(match.groups()) + 1)`, the pair
`(lookup[match.start(g)], lookup[match.end(g) - 1] + 1)`. -/
def emitSlices (lookup : List Nat) (m : ReMatch) : List (Nat × Nat) :=
  (List.range m.gspans.length).map fun j =>
    ((lookup.getD (matchSpan m (j + 1)).1 0,
      lookup.getD ((matchSpan m (j + 1)).2 - 1) 0 + 1))

/-- Positions selected by a boolean inclusion mask:
`np.where(include)[0]`. -/
def inclPositions (include_ : List Bool) : List Nat :=
  (List.range include_.length).filter fun i => include_.getD i false

/-- Model of `Sequence.slices_from_regex`: with no exclusion mask the
lookup is the identity and the regex runs on the full text; with a mask,
the lookup is `np.where(np.invert(exclude))[0]` and the regex runs on the
text of only the included positions.  `finditer` stands for the compiled
pattern's `finditer` method (Python `re`, external), mapping the searched
byte text to its matches in order. -/
def slices_from_regex (s : Sequence) (finditer : List Nat → List ReMatch)
    (exclude : Option (List Bool)) : List (Nat × Nat) :=
  match exclude with
  | none =>
    ((finditer s.bytes).map (emitSlices (List.range s.bytes.length))).flatten
  | some ex =>
    let include_ := ex.map (!·)
    ((finditer (maskSelect s.bytes include_)).map
      (emitSlices (inclPositions include_))).flatten

/-- Model of `Sequence.__str__`: `self._bytes.tostring().decode("ascii")`,
which fails on any byte outside the 7-bit range; the decoded text is the
byte values themselves (as code points). -/
def strDecode (s : Sequence) : Except Err (List Nat) :=
  if s.bytes.all (· < 128) then .ok s.bytes else .error .encoding

/-- Model of `Sequence.__init__` on a text argument: the text is encoded
as ASCII (failing on code points ≥ 128), id/description/quality are taken
from the keyword arguments (a non-`Sequence` first argument inherits
nothing), and quality, when present, must match the sequence length. -/
def mkFromText (t : List Nat) (id_ desc : String) (q : Option (List Nat)) :
    Except Err Sequence :=
  if t.all (· < 128) then
    match q with
    | none => .ok ⟨"Sequence", t, id_, desc, none⟩
    | some ql =>
      if ql.length ≠ t.length then .error .lengthMismatch
      else .ok ⟨"Sequence", t, id_, desc, some ql⟩
  else .error .encoding

/-! Helper lemmas shared by the claim theorems. -/

theorem adjStart_nonneg (n : Nat) (start? : Option Int) : 0 ≤ adjStart n start? := by
  unfold adjStart
  cases start? with
  | none => exact le_refl 0
  | some s =>
    by_cases hs : s < 0
    · simp only [if_pos hs]
      exact le_max_right _ _
    · simp only [if_neg hs]
      omega

theorem zipWith_beq_self (l : List Nat) :
    List.zipWith (fun a b => a == b) l l = List.replicate l.length true := by
  induction l with
  | nil => rfl
  | cons a rest ih => simp [List.zipWith, List.replicate, ih]

theorem countOccur_append_self (pat l : List Nat) (h : pat ≠ []) :
    countOccur pat (pat ++ l) = countOccur pat l + 1 := by
  obtain ⟨a, tail, rfl⟩ : ∃ a tail, pat = a :: tail := by
    cases pat with
    | nil => exact absurd rfl h
    | cons a tail => exact ⟨a, tail, rfl⟩
  rw [List.cons_append, countOccur]
  rw [dif_pos ?_]
  · rw [← List.cons_append, List.length_cons]
    congr 1
    rw [show tail.length + 1 = (a :: tail).length from rfl, List.drop_left]
  · refine ⟨h, ?_⟩
    rw [← List.cons_append]
    exact List.isPrefixOf_iff_prefix.mpr (List.prefix_append _ _)

/-! Concrete sequences used by witnesses and counterexamples. -/

def seqGGUC : Sequence := ⟨"Sequence", [71, 71, 85, 67], "", "", none⟩

def seqAGUC : Sequence := ⟨"Sequence", [65, 71, 85, 67], "", "", none⟩

def seqGGUCG : Sequence := ⟨"Sequence", [71, 71, 85, 67, 71], "", "", none⟩

def seqG : Sequence := ⟨"Sequence", [71], "", "", none⟩

def seqA1 : Sequence := ⟨"Sequence", [65], "", "", none⟩

def seqEmptySub : Sequence := ⟨"Sequence", [], "", "", none⟩

/-- C4: `equals` checks type, id, description, quality (both-absent equal,
presence mismatch unequal), and raw symbol content, skipping features in
the ignore set, and returns true iff all non-ignored checks pass. -/
theorem equals_spec (s o : Sequence) (ignore : List String) :
    (equals s o ignore = true ↔
      (("type" ∈ ignore ∨ s.cls = o.cls) ∧
       ("id" ∈ ignore ∨ s.id = o.id) ∧
       ("description" ∈ ignore ∨ s.description = o.description) ∧
       ("quality" ∈ ignore ∨ qualEq s.quality o.quality = true) ∧
       ("sequence" ∈ ignore ∨ s.bytes = o.bytes))) ∧
    qualEq none none = true ∧
    (∀ a b : List Nat, qualEq (some a) (some b) = true ↔ a = b) ∧
    (∀ a : List Nat,
      qualEq (some a) none = false ∧ qualEq none (some a) = false) := by
  refine ⟨?_, rfl, ?_, ?_⟩
  · unfold equals
    split_ifs with h1 h2 h3 h4 h5 <;> (simp_all; try tauto)
  · intro a b
    simp [qualEq]
  · intro a
    exact ⟨rfl, rfl⟩

/-- C5: `distance` with the default metric fails with the length-mismatch
error iff lengths differ, returns the fraction of differing positions for
equal (positive) lengths, and a custom metric is applied to the raw symbol
arrays with no length check. -/
theorem distance_spec (s o : Sequence) (h : s.cls = o.cls) :
    (s.bytes.length ≠ o.bytes.length →
      distance s o none = .error .lengthMismatch) ∧
    (s.bytes.length = o.bytes.length →
      distance s o none = .ok (hammingDist s.bytes o.bytes)) ∧
    (s.bytes.length = o.bytes.length → 0 < s.bytes.length →
      distance s o none =
        .ok ((mismatchCount s.bytes o.bytes : ℚ) / (s.bytes.length : ℚ))) ∧
    (∀ f, distance s o (some f) = .ok (f s.bytes o.bytes)) := by
  have hc : ¬o.cls ≠ s.cls := by simp [h]
  refine ⟨?_, ?_, ?_, ?_⟩
  · intro hl
    simp [distance, hc, hl]
  · intro hl
    simp [distance, hc, hl]
  · intro hl _
    simp [distance, hc, hl, hammingDist]
  · intro f
    simp [distance, hc]

/-- Witness for C5 at the spec's example: distance between GGUC and AGUC
with the default metric is 0.25. -/
theorem distance_spec_witness :
    distance seqGGUC seqAGUC none = .ok (1 / 4 : ℚ) := by
  have h := (distance_spec seqGGUC seqAGUC rfl).2.2.1 rfl (by decide)
  rw [h, show mismatchCount seqGGUC.bytes seqAGUC.bytes = 1 from rfl,
    show seqGGUC.bytes.length = 4 from rfl]
  norm_num

/-- C7: `matches` and `mismatches` fail with the length-mismatch error iff
lengths differ; otherwise `matches` is the position-wise equality vector,
`mismatches` its pointwise complement, and on a sequence against itself
they are all-true resp. all-false. -/
theorem matches_mismatches_spec (s o : Sequence) (h : s.cls = o.cls) :
    (s.bytes.length ≠ o.bytes.length →
      matchesVec s o = .error .lengthMismatch ∧
      mismatchesVec s o = .error .lengthMismatch) ∧
    (s.bytes.length = o.bytes.length →
      ∃ v, matchesVec s o = .ok v ∧ v.length = s.bytes.length ∧
        (∀ i, i < s.bytes.length →
          v.getD i false = (s.bytes.getD i 0 == o.bytes.getD i 0)) ∧
        mismatchesVec s o = .ok (v.map fun b => !b)) ∧
    matchesVec s s = .ok (List.replicate s.bytes.length true) ∧
    mismatchesVec s s = .ok (List.replicate s.bytes.length false) := by
  have hc : ¬o.cls ≠ s.cls := by simp [h]
  refine ⟨?_, ?_, ?_, ?_⟩
  · intro hl
    constructor
    · simp [matchesVec, hc, hl]
    · simp [mismatchesVec, matchesVec, hc, hl, Except.map]
  · intro hl
    refine ⟨List.zipWith (fun a b => a == b) s.bytes o.bytes, ?_, ?_, ?_, ?_⟩
    · simp [matchesVec, hc, hl]
    · simp [List.length_zipWith, hl]
    · intro i hi
      have hio : i < o.bytes.length := hl ▸ hi
      rw [List.getD_eq_getElem?_getD, List.getD_eq_getElem?_getD,
        List.getD_eq_getElem?_getD, List.getElem?_zipWith,
        List.getElem?_eq_getElem hi, List.getElem?_eq_getElem hio]
      simp
    · simp [mismatchesVec, matchesVec, hc, hl, Except.map]
  · simp [matchesVec, zipWith_beq_self]
  · simp [mismatchesVec, matchesVec, zipWith_beq_self, List.map_replicate,
      Except.map]

/-- Witness for C7 at GGUC vs GAUU. -/
theorem matches_mismatches_spec_witness :
    matchesVec seqGGUC seqGGUC = .ok [true, true, true, true] ∧
    mismatchesVec seqGGUC seqGGUC = .ok [false, false, false, false] := by
  have h := (matches_mismatches_spec seqGGUC seqGGUC rfl).2.2
  exact ⟨h.1, h.2⟩

/-- C8: `count` fails with the empty-query error iff the query has length
0, and otherwise counts non-overlapping occurrences of the query within
the adjusted `[start, end)` window; counting really is non-overlapping:
after a match, counting resumes past it. -/
theorem count_spec (s sub : Sequence) (start? end? : Option Int)
    (hc : sub.cls = s.cls) :
    (Sequence.count s sub start? end? = .error .emptyQuery ↔
      sub.bytes = []) ∧
    (sub.bytes ≠ [] →
      Sequence.count s sub start? end? =
        .ok (countOccur sub.bytes
          ((s.bytes.drop (adjStart s.bytes.length start?).toNat).take
            (adjEnd s.bytes.length end? -
              adjStart s.bytes.length start?).toNat))) ∧
    (∀ l : List Nat, sub.bytes ≠ [] →
      countOccur sub.bytes (sub.bytes ++ l) =
        countOccur sub.bytes l + 1) := by
  refine ⟨⟨?_, ?_⟩, ?_, ?_⟩
  · intro he
    by_cases h0 : sub.bytes.length = 0
    · exact List.length_eq_zero.mp h0
    · exfalso
      simp [Sequence.count, h0, hc] at he
  · intro he
    simp [Sequence.count, he]
  · intro hne
    have h0 : ¬sub.bytes.length = 0 := by
      simpa [List.length_eq_zero] using hne
    simp [Sequence.count, h0, hc, pyCount]
  · intro l hne
    exact countOccur_append_self _ _ hne

/-- Witness for C8: counting G in GGUCG gives 3, and the empty query is
rejected. -/
theorem count_spec_witness :
    Sequence.count seqGGUCG seqG none none = .ok 3 ∧
    Sequence.count seqGGUCG seqEmptySub none none = .error .emptyQuery := by
  have h := count_spec seqGGUCG seqG none none rfl
  have h2 := count_spec seqGGUCG seqEmptySub none none rfl
  constructor
  · rw [h.2.1 (by decide)]
    norm_num [seqG, seqGGUCG, adjStart, adjEnd, List.take]
    simp only [countOccur, List.isPrefixOf, List.drop]
    norm_num
  · exact h2.1.mpr rfl

/-- C9 counterexample: `index` with a zero-length subsequence *can* raise:
with `start=5` on a length-1 sequence the adjusted window is negative, the
underlying `str.index` returns -1, and the not-found error is raised. -/
theorem index_empty_counterexample :
    Sequence.index seqA1 seqEmptySub (some 5) none = .error .notFound := by
  rfl

/-- C9 (amended): `index` with a zero-length subsequence returns the
adjusted start of the search window — 0 when start is unspecified —
whenever the adjusted start does not exceed the adjusted end; when start
lies beyond the window the not-found error is raised after all.  `count`,
by contrast, always rejects a zero-length query. -/
theorem index_empty_spec (s sub : Sequence) (start? end? : Option Int)
    (hc : sub.cls = s.cls) (he : sub.bytes = []) :
    (adjStart s.bytes.length start? ≤ adjEnd s.bytes.length end? →
      Sequence.index s sub start? end? =
        .ok (adjStart s.bytes.length start?)) ∧
    (adjEnd s.bytes.length end? < adjStart s.bytes.length start? →
      Sequence.index s sub start? end? = .error .notFound) ∧
    Sequence.index s sub none none = .ok 0 ∧
    Sequence.count s sub start? end? = .error .emptyQuery := by
  have hns : 0 ≤ adjStart s.bytes.length start? := adjStart_nonneg _ _
  refine ⟨?_, ?_, ?_, ?_⟩
  · intro hle
    have hfind : pyFind s.bytes sub.bytes start? end? =
        adjStart s.bytes.length start? := by
      simp only [pyFind, he, List.length_nil]
      rw [if_pos trivial, if_neg (by omega)]
    simp [Sequence.index, hc, hfind, hns, not_lt.mpr hns]
  · intro hlt
    have hfind : pyFind s.bytes sub.bytes start? end? = -1 := by
      simp only [pyFind, he, List.length_nil]
      rw [if_pos trivial, if_pos (by omega)]
    simp [Sequence.index, hc, hfind]
  · have hfind : pyFind s.bytes sub.bytes none none = 0 := by
      simp only [pyFind, he, List.length_nil, adjStart, adjEnd]
      rw [if_pos trivial, if_neg (by omega)]
    simp [Sequence.index, hc, hfind]
  · simp [Sequence.count, he]

/-- Witness for C9's amended statement at concrete inputs. -/
theorem index_empty_spec_witness :
    Sequence.index seqA1 seqEmptySub none none = .ok 0 ∧
    Sequence.count seqA1 seqEmptySub (some 5) none = .error .emptyQuery := by
  have h := index_empty_spec seqA1 seqEmptySub (some 5) none rfl rfl
  exact ⟨h.2.2.1, h.2.2.2⟩

theorem qualEq_refl (q : Option (List Nat)) : qualEq q q = true := by
  cases q with
  | none => rfl
  | some a => simp [qualEq]

def seqWithId : Sequence := ⟨"Sequence", [65], "seq1", "", none⟩

def seqFull : Sequence := ⟨"Sequence", [65, 67], "id1", "desc", some [3, 4]⟩

/-- C6 counterexample: reconstructing from the decoded text alone loses a
non-default id, because the constructor inherits metadata only from a
`Sequence`-typed argument, never from text; the rebuilt sequence is not
equal to the original under the full equality check. -/
theorem roundtrip_counterexample :
    ((strDecode seqWithId).bind fun t => mkFromText t "" "" none) =
      .ok ⟨"Sequence", [65], "", "", none⟩ ∧
    equals ⟨"Sequence", [65], "", "", none⟩ seqWithId [] = false ∧
    equals seqWithId ⟨"Sequence", [65], "", "", none⟩ [] = false := by
  refine ⟨rfl, ?_, ?_⟩ <;> decide

/-- C6 (amended): for a base-type sequence with ASCII-decodable bytes,
reconstructing from the decoded text together with the original id,
description and quality yields a sequence equal to the original under the
full equality check with an empty ignore set (the text form alone drops
non-default metadata, as the counterexample shows). -/
theorem roundtrip_spec (s : Sequence) (hc : s.cls = "Sequence")
    (ha : s.bytes.all (· < 128) = true)
    (hq : ∀ q, s.quality = some q → q.length = s.bytes.length) :
    ((strDecode s).bind fun t =>
      mkFromText t s.id s.description s.quality) = .ok s ∧
    equals s s [] = true := by
  constructor
  · obtain ⟨cls, bytes, id_, desc, q⟩ := s
    simp only at hc ha hq ⊢
    subst hc
    simp only [strDecode, ha, if_true, Except.bind]
    cases q with
    | none => simp [mkFromText, ha]
    | some ql =>
      have hl : ql.length = bytes.length := hq ql rfl
      simp [mkFromText, ha, hl]
  · simp [equals, qualEq_refl]

/-- Witness for C6's amended statement: a sequence with non-default id,
description and quality survives the text round trip when the metadata is
passed along. -/
theorem roundtrip_spec_witness :
    ((strDecode seqFull).bind fun t =>
      mkFromText t seqFull.id seqFull.description seqFull.quality) =
      .ok seqFull ∧
    equals seqFull seqFull [] = true := by
  exact roundtrip_spec seqFull rfl (by decide) (fun q h => by cases h; rfl)

/-- C10: for N < k (k ≥ 1), `kmer_frequencies(k, relative=True)` returns
an empty mapping defaulting to 0.0 — the loop dividing by the window count
runs zero times, so the non-positive total `N - k + 1` is never used as a
divisor. -/
theorem kmer_frequencies_empty_spec (s : Sequence) (k : Int) (overlap : Bool)
    (h1 : 1 ≤ k) (h2 : (s.bytes.length : Int) < k) :
    kmer_frequencies_relative s k overlap = .ok [] ∧
    (∀ key : List Nat, freqLookup [] key = 0) ∧
    (s.bytes.length : Int) - k + 1 ≤ 0 := by
  have hk : ¬k < 1 := by omega
  have hb : (s.bytes.length : Int) - k + 1 ≤ 0 := by omega
  refine ⟨?_, fun key => rfl, hb⟩
  have hr : pyRangeLen ((s.bytes.length : Int) - k + 1)
      (if overlap then 1 else k.toNat) = 0 := by
    unfold pyRangeLen
    rw [if_pos hb]
  simp [kmer_frequencies_relative, kmers, hk, pyRange, hr, kmerCounter,
    Except.map]

/-- Witness for C10: a length-2 sequence with k = 5. -/
theorem kmer_frequencies_empty_spec_witness :
    kmer_frequencies_relative ⟨"Sequence", [65, 66], "", "", none⟩ 5 true =
      .ok [] ∧
    freqLookup [] [65] = 0 := by
  have h := kmer_frequencies_empty_spec ⟨"Sequence", [65, 66], "", "", none⟩
    5 true (by decide) (by decide)
  exact ⟨h.1, h.2.1 [65]⟩

theorem pyRangeLen_one (bound : Int) : pyRangeLen bound 1 = bound.toNat := by
  unfold pyRangeLen
  split <;> omega

theorem pyRangeLen_nonoverlap (N : Nat) (k : Int) (hk : 1 ≤ k) :
    pyRangeLen ((N : Int) - k + 1) k.toNat = N / k.toNat := by
  unfold pyRangeLen
  by_cases hb : (N : Int) - k + 1 ≤ 0
  · rw [if_pos hb]
    have hlt : N < k.toNat := by omega
    exact (Nat.div_eq_of_lt hlt).symm
  · rw [if_neg hb]
    rw [show ((N : Int) - k + 1).toNat + k.toNat - 1 = N by omega]

theorem pyRangeLen_mul_lt (bound : Int) (step : Nat) (j : Nat)
    (hj : j < pyRangeLen bound step) : ((j * step : Nat) : Int) < bound := by
  unfold pyRangeLen at hj
  by_cases hb : bound ≤ 0
  · rw [if_pos hb] at hj
    omega
  · rw [if_neg hb] at hj
    have h1 : (j + 1) * step ≤ ((bound.toNat + step - 1) / step) * step :=
      Nat.mul_le_mul_right _ hj
    have h2 : ((bound.toNat + step - 1) / step) * step ≤
        bound.toNat + step - 1 := Nat.div_mul_le_self _ _
    have h3 : (j + 1) * step = j * step + step := by ring
    rw [h3] at h1
    omega

theorem range_map_getD_eq_drop_take {α : Type u} [Inhabited α] (l : List α)
    (a c : Nat) (h : a + c ≤ l.length) :
    (List.range c).map (fun j => l.getD (a + j) default) =
      (l.drop a).take c := by
  apply List.ext_getElem?
  intro n
  rw [List.getElem?_map, List.getElem?_take]
  by_cases hn : n < c
  · rw [List.getElem?_range hn, if_pos hn, List.getElem?_drop]
    have hin : a + n < l.length := by omega
    rw [List.getElem?_eq_getElem hin, Option.map_some', List.getD_eq_getElem?_getD,
      List.getElem?_eq_getElem hin]
    rfl
  · rw [if_neg hn]
    have : (List.range c).length ≤ n := by
      rw [List.length_range]
      omega
    rw [List.getElem?_eq_none this]
    rfl

theorem sliceCore_window {α : Type u} [Inhabited α] (l : List α) (a k : Nat)
    (hk : 1 ≤ k) (h : a + k ≤ l.length) :
    sliceCore l (some (a : Int)) (some ((a : Int) + (k : Int))) 1 =
      (l.drop a).take k := by
  have hstart : ¬((a : Int) < 0) := by omega
  have hstop : ¬((a : Int) + (k : Int) < 0) := by omega
  have hmin1 : min (a : Int) (l.length : Int) = (a : Int) :=
    min_eq_left (by omega)
  have hmin2 : min ((a : Int) + (k : Int)) (l.length : Int) =
      (a : Int) + (k : Int) := min_eq_left (by omega)
  have hlt : (a : Int) < (a : Int) + (k : Int) := by omega
  simp only [sliceCore, show ¬((1 : Int) < 0) by omega, if_false,
    show (0 : Int) < 1 by omega, if_true, hstart, hstop, hmin1, hmin2, hlt]
  rw [show ((a : Int) + (k : Int) - (a : Int) - 1).toNat / (1 : Int).toNat + 1
      = k by rw [Int.toNat_one, Nat.div_one]; omega]
  rw [← range_map_getD_eq_drop_take l a k h]
  apply List.map_congr_left
  intro j hj
  rw [show ((a : Int) + (j : Int) * 1).toNat = a + j by omega]

theorem pyRange_getElem (bound : Int) (step : Nat) (j : Nat)
    (hj : j < (pyRange bound step).length) :
    (pyRange bound step)[j] = j * step := by
  have hj2 : j < pyRangeLen bound step := by
    rw [pyRange, List.length_map, List.length_range] at hj
    exact hj
  simp [pyRange, List.getElem_map, List.getElem_range]

def seqACACGACGTT : Sequence :=
  ⟨"Sequence", [65, 67, 65, 67, 71, 65, 67, 71, 84, 84], "", "", none⟩

/-- C3: `kmers(k, overlap)` fails with the invalid-argument error iff
k < 1; otherwise it yields exactly `max(0, N-k+1)` windows when
overlapping and `N // k` windows when not, the j-th window being the
length-k window of the bytes at offset `j * step` (step 1 resp. k); a
source shorter than k yields no windows rather than an error. -/
theorem kmers_spec (s : Sequence) (k : Int) (overlap : Bool) :
    (k < 1 → kmers s k overlap = .error .invalidArgument) ∧
    (1 ≤ k → ∃ ws, kmers s k overlap = .ok ws ∧
      ws.length = (if overlap then ((s.bytes.length : Int) - k + 1).toNat
        else s.bytes.length / k.toNat) ∧
      (∀ j, j < ws.length →
        (ws.getD j default).bytes =
          (s.bytes.drop (j * (if overlap then 1 else k.toNat))).take k.toNat ∧
        (ws.getD j default).bytes.length = k.toNat) ∧
      (s.bytes.length < k.toNat → ws = [])) := by
  constructor
  · intro h
    simp [kmers, h]
  · intro hk1
    have hk : ¬k < 1 := by omega
    have hstep : 1 ≤ (if overlap then 1 else k.toNat) := by
      cases overlap <;> (simp; try omega)
    refine ⟨(pyRange ((s.bytes.length : Int) - k + 1)
        (if overlap then 1 else k.toNat)).map
      (fun (i : Nat) => getitemSliceT s (some (i : Int))
        (some ((i : Int) + k))), ?_, ?_, ?_, ?_⟩
    · simp [kmers, hk]
    · rw [List.length_map, pyRange, List.length_map, List.length_range]
      cases overlap with
      | true => simp [pyRangeLen_one]
      | false => simp [pyRangeLen_nonoverlap s.bytes.length k hk1]
    · intro j hj
      rw [List.length_map, pyRange, List.length_map, List.length_range] at hj
      have hjlt : j < (pyRange ((s.bytes.length : Int) - k + 1)
          (if overlap then 1 else k.toNat)).length := by
        rw [pyRange, List.length_map, List.length_range]
        exact hj
      have hget : ((pyRange ((s.bytes.length : Int) - k + 1)
            (if overlap then 1 else k.toNat)).map
          (fun (i : Nat) => getitemSliceT s (some (i : Int))
            (some ((i : Int) + k)))).getD j default =
          getitemSliceT s
            (some ((j * (if overlap then 1 else k.toNat) : Nat) : Int))
            (some (((j * (if overlap then 1 else k.toNat) : Nat) : Int)
              + k)) := by
        rw [List.getD_eq_getElem?_getD, List.getElem?_map,
          List.getElem?_eq_getElem hjlt, Option.map_some', Option.getD_some,
          pyRange_getElem _ _ j hjlt]
      have hbound : ((j * (if overlap then 1 else k.toNat) : Nat) : Int) <
          (s.bytes.length : Int) - k + 1 :=
        pyRangeLen_mul_lt _ _ j hj
      have hfit : j * (if overlap then 1 else k.toNat) + k.toNat ≤
          s.bytes.length := by omega
      have hcast : ((j * (if overlap then 1 else k.toNat) : Nat) : Int) + k =
          ((j * (if overlap then 1 else k.toNat) : Nat) : Int) +
            ((k.toNat : Nat) : Int) := by omega
      constructor
      · rw [hget]
        simp only [getitemSliceT]
        rw [hcast, sliceCore_window s.bytes _ k.toNat (by omega) hfit]
      · rw [hget]
        simp only [getitemSliceT]
        rw [hcast, sliceCore_window s.bytes _ k.toNat (by omega) hfit]
        rw [List.length_take, List.length_drop]
        omega
    · intro hshort
      rw [List.map_eq_nil_iff]
      simp only [pyRange]
      rw [List.map_eq_nil_iff, List.range_eq_nil]
      unfold pyRangeLen
      rw [if_pos (by omega)]

/-- Witness for C3: k = 0 is rejected; ACACGACGTT with k = 4,
overlap=False yields exactly 2 windows. -/
theorem kmers_spec_witness :
    kmers seqACACGACGTT 0 true = .error .invalidArgument ∧
    ∃ ws, kmers seqACACGACGTT 4 false = .ok ws ∧ ws.length = 2 := by
  constructor
  · exact (kmers_spec seqACACGACGTT 0 true).1 (by decide)
  · obtain ⟨ws, h1, h2, _⟩ := (kmers_spec seqACACGACGTT 4 false).2 (by decide)
    exact ⟨ws, h1, by simpa using h2⟩

/-- The byte segment one element of a heterogeneous index iterable
selects: a slice is applied as-is, an integer is first converted by
`intToSlice`; the rejected-element case never contributes a segment. -/
def iterSeg {α : Type u} [Inhabited α] (arr : List α) : IterIdx → List α
  | .sl s => sliceCore arr s.start s.stop (s.step.getD 1)
  | .int i => sliceCore arr (intToSlice i).start (intToSlice i).stop 1
  | .other => []

theorem intToSlice_step (i : Int) : (intToSlice i).step.getD 1 = 1 := by
  unfold intToSlice
  split <;> rfl

theorem slices_from_iter_ok {α : Type u} [Inhabited α] (arr : List α)
    (ixs : List IterIdx) (hstep : ixs.all IterIdx.stepOk = true)
    (hno : ixs.all (fun x => !x.isOther) = true) :
    slices_from_iter arr ixs = .ok (ixs.map (iterSeg arr)) := by
  induction ixs with
  | nil => rfl
  | cons x rest ih =>
    rw [List.all_cons, Bool.and_eq_true] at hstep hno
    cases x with
    | sl s =>
      have hs : ¬s.step.getD 1 = 0 := by
        simpa [IterIdx.stepOk] using hstep.1
      simp [slices_from_iter, applySlice, hs, ih hstep.2 hno.2, iterSeg,
        Except.bind, Except.map]
    | int i =>
      simp [slices_from_iter, applySlice, intToSlice_step i,
        ih hstep.2 hno.2, iterSeg, Except.bind, Except.map]
    | other =>
      simp [IterIdx.isOther] at hno
theorem slices_from_iter_err {α : Type u} [Inhabited α] (arr : List α)
    (ixs : List IterIdx) (hstep : ixs.all IterIdx.stepOk = true)
    (hyes : ixs.any IterIdx.isOther = true) :
    slices_from_iter arr ixs = .error .invalidIndex := by
  induction ixs with
  | nil => simp at hyes
  | cons x rest ih =>
    rw [List.all_cons, Bool.and_eq_true] at hstep
    rw [List.any_cons, Bool.or_eq_true] at hyes
    cases x with
    | sl s =>
      have hs : ¬s.step.getD 1 = 0 := by
        simpa [IterIdx.stepOk] using hstep.1
      have hrest : rest.any IterIdx.isOther = true := by
        rcases hyes with h | h
        · simp [IterIdx.isOther] at h
        · exact h
      simp [slices_from_iter, applySlice, hs, ih hstep.2 hrest, Except.bind,
        Except.map]
    | int i =>
      have hrest : rest.any IterIdx.isOther = true := by
        rcases hyes with h | h
        · simp [IterIdx.isOther] at h
        · exact h
      simp [slices_from_iter, applySlice, intToSlice_step i,
        ih hstep.2 hrest, Except.bind, Except.map]
    | other =>
      simp [slices_from_iter]

def seqHet : Sequence :=
  ⟨"Sequence", [71, 71, 85, 67, 71], "i", "d", some [1, 2, 3, 4, 5]⟩

/-- C1: on the heterogeneous-iterable indexing path (iterables holding at
least one slice object, the condition for an `object`-dtype index, with
valid slices), `__getitem__` uses each slice as-is, converts integer `i`
to `slice(i, i+1)` except `-1` which becomes `slice(-1, None)`, fails with
the invalid-index error when any element is of another type, and otherwise
returns a new sequence whose bytes — and quality, when present — are the
concatenation of the selected segments in the given order, with id,
description and class propagated. -/
theorem getitem_iter_spec (s : Sequence) (ixs : List IterIdx)
    (_hhet : ixs.any IterIdx.isSl = true)
    (hstep : ixs.all IterIdx.stepOk = true) :
    (ixs.any IterIdx.isOther = true →
      getitemIter s ixs = .error .invalidIndex) ∧
    (ixs.all (fun x => !x.isOther) = true →
      getitemIter s ixs = .ok
        { s with
          bytes := (ixs.map (iterSeg s.bytes)).flatten
          quality := s.quality.map fun q =>
            (ixs.map (iterSeg q)).flatten }) := by
  constructor
  · intro hyes
    rw [getitemIter, slices_from_iter_err s.bytes ixs hstep hyes]
    rfl
  · intro hno
    rw [getitemIter, slices_from_iter_ok s.bytes ixs hstep hno]
    cases hq : s.quality with
    | none => simp [Except.bind, hq]
    | some q =>
      rw [Except.bind]
      simp only [hq]
      rw [slices_from_iter_ok q ixs hstep hno]
      simp [Except.map]

/-- Witness for C1: slicing GGUCG (with quality) by
`[slice(1, 3), -1, 0]` concatenates the segments of bytes and quality,
and an iterable containing an unsupported element is rejected. -/
theorem getitem_iter_spec_witness :
    getitemIter seqHet [.sl ⟨some 1, some 3, none⟩, .int (-1), .int 0] =
      .ok ⟨"Sequence", [71, 85, 71, 71], "i", "d", some [2, 3, 5, 1]⟩ ∧
    getitemIter seqHet [.sl ⟨some 1, some 3, none⟩, .other] =
      .error .invalidIndex := by
  have h := getitem_iter_spec seqHet
    [.sl ⟨some 1, some 3, none⟩, .int (-1), .int 0] (by decide) (by decide)
  have h2 := getitem_iter_spec seqHet
    [.sl ⟨some 1, some 3, none⟩, .other] (by decide) (by decide)
  constructor
  · rw [h.2 (by decide)]
    rfl
  · exact h2.1 (by decide)

theorem range_map_getD_eq_map {α β : Type u} (l : List α) (d : α)
    (f : α → β) :
    (List.range l.length).map (fun j => f (l.getD j d)) = l.map f := by
  apply List.ext_getElem?
  intro n
  rw [List.getElem?_map, List.getElem?_map]
  by_cases hn : n < l.length
  · rw [List.getElem?_range hn, List.getElem?_eq_getElem hn,
      Option.map_some', Option.map_some', List.getD_eq_getElem?_getD,
      List.getElem?_eq_getElem hn]
    rfl
  · rw [List.getElem?_eq_none (by rw [List.length_range]; omega),
      List.getElem?_eq_none (le_of_not_lt hn)]
    rfl

theorem emitSlices_eq (lookup : List Nat) (m : ReMatch) :
    emitSlices lookup m = m.gspans.map fun sp =>
      (lookup.getD sp.1 0, lookup.getD (sp.2 - 1) 0 + 1) := by
  unfold emitSlices
  have hm : ∀ j : Nat, matchSpan m (j + 1) = m.gspans.getD j (0, 0) := by
    intro j
    unfold matchSpan
    simp
  simp only [hm]
  exact range_map_getD_eq_map m.gspans (0, 0)
    (fun sp => (lookup.getD sp.1 0, lookup.getD (sp.2 - 1) 0 + 1))

def seqGapped : Sequence :=
  ⟨"Sequence",
   [65, 65, 84, 65, 45, 45, 84, 65, 67, 67, 71, 71, 84, 84, 65, 84, 65,
    45, 65], "", "", none⟩

def exGapped : List Bool :=
  [false, false, false, false, true, true, false, false, false, false,
   false, false, false, false, false, false, false, true, false]

def finditerTATA : List Nat → List ReMatch :=
  fun _ => [⟨(2, 6), [(2, 6)]⟩, ⟨(11, 16), [(11, 16)]⟩]

/-- C2: with an exclusion mask of the sequence's length, the regex runs on
the text of the included positions only, and for every explicit capturing
group of every match with local span `[start, end)` the emitted slice is
`(lookup[start], lookup[end-1]+1)` — one slice per group per match, in
ascending group order; `lookup` is the ascending list of included original
positions, and group 0 (the whole-match span) never influences the
output. -/
theorem slices_from_regex_spec (s : Sequence) (ex : List Bool)
    (finditer : List Nat → List ReMatch)
    (hlen : ex.length = s.bytes.length) :
    (slices_from_regex s finditer (some ex) =
      ((finditer (maskSelect s.bytes (ex.map (!·)))).map fun m =>
        m.gspans.map fun sp =>
          ((inclPositions (ex.map (!·))).getD sp.1 0,
           (inclPositions (ex.map (!·))).getD (sp.2 - 1) 0 + 1)).flatten) ∧
    (inclPositions (ex.map (!·))).Pairwise (· < ·) ∧
    (∀ p, p ∈ inclPositions (ex.map (!·)) ↔
      p < s.bytes.length ∧ ex.getD p true = false) ∧
    (∀ f : ReMatch → Nat × Nat,
      slices_from_regex s
        (fun t => (finditer t).map fun m => { m with span0 := f m })
        (some ex) =
      slices_from_regex s finditer (some ex)) := by
  refine ⟨?_, ?_, ?_, ?_⟩
  · simp only [slices_from_regex]
    congr 1
    apply List.map_congr_left
    intro m _
    exact emitSlices_eq _ m
  · exact List.Pairwise.sublist (List.filter_sublist _)
      (List.pairwise_lt_range _)
  · intro p
    unfold inclPositions
    rw [List.mem_filter, List.mem_range, List.length_map, hlen]
    constructor
    · rintro ⟨hp, hg⟩
      refine ⟨hp, ?_⟩
      rw [List.getD_eq_getElem?_getD, List.getElem?_map,
        List.getElem?_eq_getElem (by omega : p < ex.length)] at hg
      rw [List.getD_eq_getElem?_getD,
        List.getElem?_eq_getElem (by omega : p < ex.length)]
      simpa using hg
    · rintro ⟨hp, hg⟩
      refine ⟨hp, ?_⟩
      rw [List.getD_eq_getElem?_getD, List.getElem?_map,
        List.getElem?_eq_getElem (by omega : p < ex.length)]
      rw [List.getD_eq_getElem?_getD,
        List.getElem?_eq_getElem (by omega : p < ex.length)] at hg
      simpa using hg
  · intro f
    simp only [slices_from_regex]
    congr 1
    rw [List.map_map]
    apply List.map_congr_left
    intro m _
    rw [Function.comp_apply, emitSlices_eq, emitSlices_eq]

/-- Witness for C2 at the docstring's gapped-TATA example: the two matches
on the gap-free text remap to the original-coordinate slices `(2, 8)` and
`(13, 19)`. -/
theorem slices_from_regex_spec_witness :
    slices_from_regex seqGapped finditerTATA (some exGapped) =
      [(2, 8), (13, 19)] := by
  have h := (slices_from_regex_spec seqGapped exGapped finditerTATA rfl).1
  rw [h]
  rfl

end Skbio
